import Mathlib

/-!
Verification development for the AcadHack quiz-automation engine.

The definitions below are a shallow embedding of the Python sources:
  gemini_solver.py  (answer Selector: rate limiter, response parsing),
  scraper.py        (content Extractor: text normalization, option mapping),
  main.py           (Automation State Machine: the solver loop).

Strings are modelled as lists of characters; wall-clock time as rationals;
fallible operations of the environment (the browser driver, the reasoning
service) as explicit outcome data fed to the embedded control flow.
-/

set_option maxHeartbeats 1000000
set_option synthInstance.maxHeartbeats 400000

namespace AcadHack

/-! ### Selector: gemini_solver.py -/

/-- A capital letter of the fixed answer alphabet, per the character class
of the regex in GeminiSolver.extract_letter. -/
def isABCD (c : Char) : Bool := c = 'A' || c = 'B' || c = 'C' || c = 'D'

/-- A regex word character (ASCII letter, digit or underscore), as used by
the word-boundary assertions in the standalone-token search. -/
def isWordChar (c : Char) : Bool := c.isAlphanum || c = '_'

/-- Whether the next character (if any) is a word character: the right-hand
word-boundary test. -/
def nextWord : List Char → Bool
  | [] => false
  | c :: _ => isWordChar c

/-- Leftmost standalone-token search for a letter A-D, the embedding of
searching the uppercased text for a single letter between word boundaries.
The Bool argument records whether the previous character was a word
character. -/
def findStandalone : Bool → List Char → Option Char
  | _, [] => none
  | prevW, c :: rest =>
    if isABCD c && !prevW && !nextWord rest then some c
    else findStandalone (isWordChar c) rest

/-- First occurrence of any letter A-D anywhere in the text: the
character-scan fallback of GeminiSolver.extract_letter. -/
def firstABCD : List Char → Option Char
  | [] => none
  | c :: rest => if isABCD c then some c else firstABCD rest

/-- Embedding of Python str.strip: drop leading and trailing whitespace. -/
def pythonStrip (l : List Char) : List Char :=
  (((l.dropWhile Char.isWhitespace).reverse).dropWhile Char.isWhitespace).reverse

/-- Embedding of Python str.upper on the characters involved here. -/
def toUpperStr (l : List Char) : List Char := l.map Char.toUpper

/-- Embedding of GeminiSolver.extract_letter: empty input defaults to A;
otherwise the input is stripped and uppercased, searched for a standalone
A-D token, then for any A-D character, defaulting to A. -/
def extract_letter (raw : List Char) : Char :=
  if raw = [] then 'A'
  else
    match findStandalone false (toUpperStr (pythonStrip raw)) with
    | some c => c
    | none =>
      match firstABCD (toUpperStr (pythonStrip raw)) with
      | some c => c
      | none => 'A'

/-- Modelled from the spec words of response parsing (section 4.2), for
comparison with extract_letter: uppercase the raw response, search for a
standalone single-letter token, else the first occurrence of any alphabet
letter, else the default label A. -/
def specParseLabel (raw : List Char) : Char :=
  match findStandalone false (toUpperStr raw) with
  | some c => c
  | none =>
    match firstABCD (toUpperStr raw) with
    | some c => c
    | none => 'A'

/-- The mutable state of a GeminiSolver instance that the rate limiter
reads and writes: the configured interval and the recorded time of the
last successful request. -/
structure SolverState where
  interval : ℚ
  last : ℚ
  deriving DecidableEq

/-- Time at which the request is issued, after enforce_rate_limit has run
at wall-clock time `now`: if the remaining deficit
`interval - (now - last)` is positive the call sleeps exactly that long. -/
def requestTime (st : SolverState) (now : ℚ) : ℚ :=
  if st.interval - (now - st.last) > 0 then now + (st.interval - (now - st.last)) else now

/-- Behaviour of one reasoning-service call: the generate_content call
either raises, or returns a response whose text attribute reads `raw`. -/
inductive ServiceOutcome where
  | failure
  | success (raw : List Char)

/-- Result of one GeminiSolver.get_answer call: the returned letter, the
solver state afterwards, the time the request was issued, and the time the
call returned. -/
structure CallResult where
  answer : Char
  state : SolverState
  reqTime : ℚ
  endTime : ℚ

/-- Embedding of GeminiSolver.get_answer, entered at wall-clock time
`tCall`: enforce the rate limit, issue the request (taking `dur` time);
on failure the exception is absorbed, the answer defaults to A and the
recorded last-request time is left unchanged; on success the last-request
time is set to the completion time and the answer is parsed from the raw
text. -/
def get_answer (st : SolverState) (tCall : ℚ) (outc : ServiceOutcome) (dur : ℚ) :
    CallResult :=
  let r := requestTime st tCall
  let tEnd := r + dur
  match outc with
  | .failure => ⟨'A', st, r, tEnd⟩
  | .success raw => ⟨extract_letter raw, ⟨st.interval, tEnd⟩, r, tEnd⟩

/-! ### Extractor: scraper.py -/

/-- Embedding of Python str.split with no argument, as used by
parse_math_expressions: split on runs of whitespace, discarding empty
pieces. -/
def splitWs : List Char → List (List Char)
  | [] => []
  | c :: rest =>
    if c.isWhitespace then splitWs rest
    else (c :: rest.takeWhile (fun x => !x.isWhitespace)) ::
      splitWs (rest.dropWhile (fun x => !x.isWhitespace))
termination_by l => l.length
decreasing_by
  · simp only [List.length_cons]
    omega
  · simp only [List.length_cons]
    exact Nat.lt_succ_of_le (List.dropWhile_sublist _).length_le

/-- Embedding of joining string pieces with a single-space separator, as
in a separator join of all text pieces. -/
def joinSpace : List (List Char) → List Char
  | [] => []
  | w :: ws =>
    match ws with
    | [] => w
    | _ :: _ => w ++ ' ' :: joinSpace ws

/-- Whitespace normalization at the end of parse_math_expressions:
join the whitespace-split words of the text with single spaces. -/
def normalizeWs (l : List Char) : List Char := joinSpace (splitWs l)

/-- Characterization of text with already-collapsed whitespace: nonempty
words of non-whitespace characters separated by single spaces, with no
leading or trailing space. The flag records whether the scanner currently
expects the start of a word (at the beginning, or just after a space). -/
def collAux : Bool → List Char → Bool
  | atWord, [] => !atWord
  | atWord, c :: rest =>
    if c = ' ' then !atWord && collAux true rest
    else !c.isWhitespace && collAux false rest

/-- A string has collapsed whitespace when it is empty or consists of
single-space-separated nonempty whitespace-free words. -/
def collapsedB (l : List Char) : Bool := l.isEmpty || collAux true l

/-- One piece of a parsed HTML fragment as scraper.parse_math_expressions
sees it after the soup parse: a text node, a superscript element's flat
text, or a subscript element's flat text. -/
inductive Piece where
  | text (s : List Char)
  | sup (s : List Char)
  | sub (s : List Char)

/-- The superscript/subscript rewriting pass of parse_math_expressions:
a sup element's string is replaced by a caret-prefixed run and unwrapped,
a sub element's by an underscore-prefixed run; plain text is untouched. -/
def rewritePiece : Piece → List Char
  | .text s => s
  | .sup s => '^' :: s
  | .sub s => '_' :: s

/-- Embedding of scraper.parse_math_expressions on a parsed fragment:
rewrite sup and sub markup, flatten to text with a single-space separator
between pieces, then collapse whitespace. An empty input yields the empty
string through the same pipeline. -/
def parse_math_expressions (doc : List Piece) : List Char :=
  normalizeWs (joinSpace (doc.map rewritePiece))

/-- config.SUPPORTED_OPTION_LABELS. -/
def SUPPORTED_OPTION_LABELS : List (List Char) := [['A'], ['B'], ['C'], ['D']]

/-- One option card found on the page: the text of its label sub-element
(none when locating the label element raised), and its extracted content. -/
structure Card (α : Type) where
  labelText : Option (List Char)
  content : α
  deriving DecidableEq

/-- Insertion-ordered dictionary update, the embedding of Python dict
assignment: an existing key keeps its position and gets the new value, a
new key is appended. -/
def dictInsert {α : Type} (k : List Char) (v : α) :
    List (List Char × α) → List (List Char × α)
  | [] => [(k, v)]
  | (k', v') :: rest =>
    if k' = k then (k', v) :: rest else (k', v') :: dictInsert k v rest

/-- Label normalization in scrape_quiz_data: strip then uppercase the
label element's text. -/
def normLabel (t : List Char) : List Char := toUpperStr (pythonStrip t)

/-- One iteration of the option-collection loop of scrape_quiz_data: a
card whose label element is missing or whose normalized label is not a
supported letter is skipped; otherwise the content is recorded under the
label and the card itself is recorded as the clickable element. -/
def scrapeStep {α : Type} (acc : List (List Char × α) × List (List Char × Card α))
    (card : Card α) : List (List Char × α) × List (List Char × Card α) :=
  match card.labelText with
  | none => acc
  | some t =>
    if normLabel t ∈ SUPPORTED_OPTION_LABELS then
      (dictInsert (normLabel t) card.content acc.1, dictInsert (normLabel t) card acc.2)
    else acc

/-- The option-collection loop of scrape_quiz_data over the option cards
in page order, with dictionary insertion order. -/
def scrapeOptions {α : Type} (cards : List (Card α)) :
    List (List Char × α) × List (List Char × Card α) :=
  cards.foldl scrapeStep ([], [])

/-- The normalized label a card contributes, when it contributes one. -/
def validLabel {α : Type} (card : Card α) : Option (List Char) :=
  match card.labelText with
  | none => none
  | some t =>
    if normLabel t ∈ SUPPORTED_OPTION_LABELS then some (normLabel t) else none

/-- First-occurrence accumulation of a key into a key list: an already
present key leaves the list unchanged, a new key is appended. -/
def insKey (ks : List (List Char)) (k : List Char) : List (List Char) :=
  if k ∈ ks then ks else ks ++ [k]

/-- The payload scrape_quiz_data returns on success. -/
structure QuizData (α : Type) where
  question : α
  options : List (List Char × α)
  option_elements : List (List Char × Card α)
  deriving DecidableEq

/-- Embedding of scraper.scrape_quiz_data after the question and the
option cards have been located: collect the options, raise RuntimeError
when no valid option was found, otherwise return the payload. -/
def scrape_quiz_data {α : Type} (question : α) (cards : List (Card α)) :
    Except (List Char) (QuizData α) :=
  match scrapeOptions cards with
  | ([], _) => .error ("No valid options (A-D) found on the page.".toList)
  | (o, e) => .ok ⟨question, o, e⟩

/-! ### State machine: main.py, AutomationController.run_solver_loop

The loop is modelled one cycle at a time. The environment of a cycle
records what the page and the services do at each step the code takes:
the stop-event observations, the result of each scrape attempt inside the
bounded-slice polling, the solver call's result, and the results of the
driver interactions. The cycle produces the sequence of observable events
(stop checks with the value observed, scrape attempts, the option click,
the action-button click) and either loops or terminates with a run
outcome. -/

/-- Terminal outcome of a run. -/
inductive Outcome where
  | stopped
  | completed
  | failed
  | disconnected
  deriving DecidableEq

/-- Observable events of the automation loop. -/
inductive Ev where
  | check (observed : Bool)
  | scrape
  | clickOption
  | clickAction
  | term (o : Outcome)
  deriving DecidableEq

/-- Python dict.get on an insertion-ordered dictionary. -/
def lookupDict {β : Type} (k : List Char) : List (List Char × β) → Option β
  | [] => none
  | (k', v) :: rest => if k' = k then some v else lookupDict k rest

/-- Result of resolving the answer letter to an option element in the
loop: the element to click together with its label and whether it was a
logged fallback substitution, or termination because no option elements
are available. -/
inductive ChooseResult (β : Type) where
  | clicked (label : List Char) (handle : β) (substituted : Bool)
  | failed
  deriving DecidableEq

/-- Embedding of the option-resolution step of run_solver_loop: look the
answer letter up in the option-element mapping; when absent, fall back to
the first entry in iteration order (a logged substitution) when the
mapping is nonempty, and terminate the run as failed when it is empty. -/
def choose_option {β : Type} (els : List (List Char × β)) (ans : List Char) :
    ChooseResult β :=
  match lookupDict ans els with
  | some h => .clicked ans h false
  | none =>
    match els with
    | [] => .failed
    | (l, h) :: _ => .clicked l h true

/-- config.NEXT_BUTTON_TEXT. -/
def NEXT_BUTTON_TEXT : List Char := "Next Question".toList

/-- config.SUBMIT_BUTTON_TEXT. -/
def SUBMIT_BUTTON_TEXT : List Char := "Submit Quiz".toList

/-- The two site modes. -/
inductive Mode where
  | standard
  | booster
  deriving DecidableEq

/-- Result of one scrape_quiz_data attempt inside the polling loop, as
classified by the except clauses around it: success (carrying the
option-element mapping, with handles as numbers), a slice timeout, a
disconnected-session WebDriver error, another WebDriver error, or another
exception. -/
inductive ScrapeAttempt where
  | success (els : List (List Char × Nat))
  | timeoutE
  | disconnected
  | wdErr
  | otherErr
  deriving DecidableEq

/-- What one polling slice observes: the stop event, the booster
completion screen, and the scrape attempt's result. -/
structure PollObs where
  stop : Bool
  boosterFinished : Bool
  attempt : ScrapeAttempt
  deriving DecidableEq

/-- Exit status of the responsive-wait polling loop. -/
inductive PollExit where
  | found (els : List (List Char × Nat))
  | stoppedP
  | completedP
  | failedP
  | disconnectedP
  | timedOutP
  deriving DecidableEq

/-- Embedding of the bounded-slice polling loop of run_solver_loop: while
the wait budget (the length of the observation list) is not exhausted,
check the stop event (returning as stopped when set), in booster mode
check the completion screen (returning as completed when present), then
attempt a scrape: success exits with the data, a slice timeout consumes
one slice and retries, a disconnection exits as disconnected, any other
error exits as failed. An exhausted budget leaves quiz data unset, which
the caller turns into a failed termination. -/
def pollLoop (mode : Mode) : List PollObs → List Ev × PollExit
  | [] => ([], .timedOutP)
  | p :: rest =>
    if p.stop then ([Ev.check true], .stoppedP)
    else if mode = .booster && p.boosterFinished then ([Ev.check false], .completedP)
    else
      match p.attempt with
      | .success els => ([Ev.check false, Ev.scrape], .found els)
      | .timeoutE =>
        (Ev.check false :: Ev.scrape :: (pollLoop mode rest).1, (pollLoop mode rest).2)
      | .disconnected => ([Ev.check false, Ev.scrape], .disconnectedP)
      | .wdErr => ([Ev.check false, Ev.scrape], .failedP)
      | .otherErr => ([Ev.check false, Ev.scrape], .failedP)

/-- Result of waiting for the chosen option to become clickable. -/
inductive WaitClickRes where
  | okW
  | timeoutW
  | staleW
  | wdErrW
  deriving DecidableEq

/-- Result of clicking the chosen option: direct click success, a stale
element, or a direct-click failure followed by a JavaScript-click success
or failure. -/
inductive ClickRes where
  | okC
  | staleC
  | errJsOk
  | errJsFail
  deriving DecidableEq

/-- Result of locating the clickable action button in standard mode. -/
inductive StdFindRes where
  | foundBtn (text : List Char)
  | timeoutB
  | wdErrB
  deriving DecidableEq

/-- Environment of one cycle of run_solver_loop: what every step the code
can reach would observe this cycle. -/
structure CycleEnv where
  mode : Mode
  stopTop : Bool
  polls : List PollObs
  solve : Option (List Char)
  waitClick : WaitClickRes
  clickOpt : ClickRes
  stdFind : StdFindRes
  stdClickOk : Bool
  stdStopAfter : Bool
  boostReady : Bool
  boostClickOk : Bool

/-- The action-button phase of a cycle (step 4 of the loop body). In
booster mode: wait for the button to be present and enabled (failure of
either terminates the run as failed), click it (an error terminates as
failed), wait for staleness and settle, then loop. In standard mode:
locate the clickable button (timeout or driver error terminates as
failed) and read its text; the next-question text clicks, settles and
re-checks the stop event before looping; the submit text clicks, drives
the confirmation popup best-effort and terminates the run; any other text
clicks anyway, settles and re-checks the stop event before looping. A
failed button click (direct and JavaScript) terminates as failed. -/
def actionPhase (env : CycleEnv) : List Ev × Option Outcome :=
  match env.mode with
  | .booster =>
    if env.boostReady then
      if env.boostClickOk then ([Ev.clickAction], none)
      else ([], some .failed)
    else ([], some .failed)
  | .standard =>
    match env.stdFind with
    | .timeoutB => ([], some .failed)
    | .wdErrB => ([], some .failed)
    | .foundBtn text =>
      if text = NEXT_BUTTON_TEXT then
        if env.stdClickOk then
          ([Ev.clickAction, Ev.check env.stdStopAfter],
            if env.stdStopAfter then some .stopped else none)
        else ([], some .failed)
      else if text = SUBMIT_BUTTON_TEXT then
        if env.stdClickOk then ([Ev.clickAction], some .completed)
        else ([], some .failed)
      else
        if env.stdClickOk then
          ([Ev.clickAction, Ev.check env.stdStopAfter],
            if env.stdStopAfter then some .stopped else none)
        else ([], some .failed)

/-- The option-click phase of a cycle (step 3 of the loop body, after the
element is resolved): wait for the chosen element to be clickable, where
a timeout or driver error terminates the run as failed and a staleness
failure abandons the cycle and loops; then click it, where a staleness
failure abandons the cycle and loops, any other failure falls back to a
JavaScript click, and a failed JavaScript click terminates as failed. -/
def clickPhase (env : CycleEnv) : List Ev × Option Outcome :=
  match env.waitClick with
  | .timeoutW => ([], some .failed)
  | .staleW => ([], none)
  | .wdErrW => ([], some .failed)
  | .okW =>
    match env.clickOpt with
    | .staleC => ([], none)
    | .errJsFail => ([], some .failed)
    | .okC => (Ev.clickOption :: (actionPhase env).1, (actionPhase env).2)
    | .errJsOk => (Ev.clickOption :: (actionPhase env).1, (actionPhase env).2)

/-- The solve-and-resolve phase: obtain the answer from the solver (an
exception terminates the run as failed), resolve it against the
option-element mapping with choose_option (no elements terminates the
run as failed), then click. -/
def solvePhase (env : CycleEnv) (els : List (List Char × Nat)) :
    List Ev × Option Outcome :=
  match env.solve with
  | none => ([], some .failed)
  | some a =>
    match choose_option els a with
    | .failed => ([], some .failed)
    | .clicked _ _ _ => clickPhase env

/-- One full cycle of run_solver_loop: the top-of-loop stop check (set
terminates as stopped), the responsive polling wait for the question, and
on scraped data the solve, option-click and action phases. The second
component is none when the cycle loops back to the top. -/
def cycle (env : CycleEnv) : List Ev × Option Outcome :=
  if env.stopTop then ([Ev.check true], some Outcome.stopped)
  else
    match (pollLoop env.mode env.polls).2 with
    | .found els =>
      (Ev.check false :: (pollLoop env.mode env.polls).1 ++ (solvePhase env els).1,
        (solvePhase env els).2)
    | .stoppedP => (Ev.check false :: (pollLoop env.mode env.polls).1, some .stopped)
    | .completedP => (Ev.check false :: (pollLoop env.mode env.polls).1, some .completed)
    | .failedP => (Ev.check false :: (pollLoop env.mode env.polls).1, some .failed)
    | .disconnectedP => (Ev.check false :: (pollLoop env.mode env.polls).1, some .disconnected)
    | .timedOutP => (Ev.check false :: (pollLoop env.mode env.polls).1, some .failed)

/-- The automation loop: run cycles until one terminates, recording the
terminal outcome; the trace is truncated when the supplied environment
list runs out. -/
def run : List CycleEnv → List Ev
  | [] => []
  | e :: rest =>
    match (cycle e).2 with
    | some o => (cycle e).1 ++ [Ev.term o]
    | none => (cycle e).1 ++ run rest

/-- Every scrape event is immediately preceded by a stop check observing
the signal unset. The Bool argument records whether the previous event
was such a check. -/
def scrapeGuarded : Bool → List Ev → Bool
  | _, [] => true
  | prevOk, e :: rest =>
    (if e = Ev.scrape then prevOk else true) &&
      scrapeGuarded (if e = Ev.check false then true else false) rest

/-- The guard flag of scrapeGuarded after processing a list. -/
def flagAfter : Bool → List Ev → Bool
  | b, [] => b
  | _, e :: rest => flagAfter (if e = Ev.check false then true else false) rest

/-- No stop check in the list observes the signal set. -/
def checkTrueFree : List Ev → Bool
  | [] => true
  | e :: rest => (if e = Ev.check true then false else true) && checkTrueFree rest

/-- Whenever a stop check observes the signal set, the only thing that
follows is the stopped termination: nothing else, in particular no scrape
and no click, happens after the signal is observed set. -/
def stopOk : List Ev → Bool
  | [] => true
  | e :: rest =>
    if e = Ev.check true then decide (rest = [Ev.term Outcome.stopped]) else stopOk rest

/-- Between any two action-button clicks there is a stop check. The Bool
argument records whether an action click has been seen with no stop check
since. -/
def actionsSeparated : Bool → List Ev → Bool
  | _, [] => true
  | armed, e :: rest =>
    match e with
    | .clickAction => !armed && actionsSeparated true rest
    | .check _ => actionsSeparated false rest
    | _ => actionsSeparated armed rest

/-- The armed flag of actionsSeparated after processing a list. -/
def armAfter : Bool → List Ev → Bool
  | a, [] => a
  | a, e :: rest =>
    match e with
    | .clickAction => armAfter true rest
    | .check _ => armAfter false rest
    | _ => armAfter a rest

/-! ### Helper lemmas -/

theorem mem_of_isABCD (c : Char) (h : isABCD c = true) :
    c ∈ (['A', 'B', 'C', 'D'] : List Char) := by
  simp only [isABCD, Bool.or_eq_true, decide_eq_true_eq] at h
  rcases h with ((h | h) | h) | h <;> simp [h]

theorem findStandalone_isABCD (p : Bool) (l : List Char) (c : Char)
    (h : findStandalone p l = some c) : isABCD c = true := by
  induction l generalizing p with
  | nil => simp [findStandalone] at h
  | cons d rest ih =>
    rw [findStandalone] at h
    split at h
    · next hcond =>
      injection h with h'
      subst h'
      simp only [Bool.and_eq_true] at hcond
      exact hcond.1.1
    · exact ih _ h

theorem firstABCD_isABCD (l : List Char) (c : Char)
    (h : firstABCD l = some c) : isABCD c = true := by
  induction l with
  | nil => simp [firstABCD] at h
  | cons d rest ih =>
    rw [firstABCD] at h
    split at h
    · next hcond => injection h with h'; subst h'; exact hcond
    · exact ih h

theorem extract_letter_mem (raw : List Char) :
    extract_letter raw ∈ (['A', 'B', 'C', 'D'] : List Char) := by
  rw [extract_letter]
  split
  · simp
  · cases hf : findStandalone false (toUpperStr (pythonStrip raw)) with
    | some c =>
      simp only [hf]
      exact mem_of_isABCD c (findStandalone_isABCD _ _ _ hf)
    | none =>
      simp only [hf]
      cases hg : firstABCD (toUpperStr (pythonStrip raw)) with
      | some c =>
        simp only [hg]
        exact mem_of_isABCD c (firstABCD_isABCD _ _ hg)
      | none => simp [hg]

theorem keys_dictInsert {α : Type} (k : List Char) (v : α) (m : List (List Char × α)) :
    (dictInsert k v m).map Prod.fst = insKey (m.map Prod.fst) k := by
  induction m with
  | nil => simp [dictInsert, insKey]
  | cons kv rest ih =>
    obtain ⟨k', v'⟩ := kv
    rw [dictInsert]
    split
    · next heq =>
      subst heq
      simp only [List.map_cons, insKey]
      rw [if_pos (List.mem_cons_self _ _)]
    · next hne =>
      have hne' : k' ≠ k := hne
      simp only [List.map_cons, ih]
      rw [insKey, insKey]
      by_cases hk : k ∈ rest.map Prod.fst
      · rw [if_pos hk, if_pos (show k ∈ k' :: rest.map Prod.fst from
          List.mem_cons_of_mem _ hk)]
      · rw [if_neg hk, if_neg (show k ∉ k' :: rest.map Prod.fst from ?_)]
        · rfl
        · intro hmem
          rcases List.mem_cons.mp hmem with h | h
          · exact hne' h.symm
          · exact hk h

theorem mem_insKey {ks : List (List Char)} {k j : List Char}
    (h : j ∈ insKey ks k) : j ∈ ks ∨ j = k := by
  rw [insKey] at h
  split at h
  · exact Or.inl h
  · rcases List.mem_append.mp h with h | h
    · exact Or.inl h
    · simp at h
      exact Or.inr h

theorem lookupDict_isSome_iff {β : Type} (m : List (List Char × β)) (k : List Char) :
    (∃ v, lookupDict k m = some v) ↔ k ∈ m.map Prod.fst := by
  induction m with
  | nil => simp [lookupDict]
  | cons kv rest ih =>
    obtain ⟨k', v'⟩ := kv
    rw [lookupDict]
    by_cases h : k' = k
    · subst h; simp
    · simp only [h, if_false, List.map_cons, List.mem_cons]
      rw [ih]
      constructor
      · exact Or.inr
      · rintro (hk | hk)
        · exact absurd hk.symm h
        · exact hk

/-! ### Claims C1, C4, C5, C6, C10 -/

/-- Claim C1: for every solver state, call time, service behaviour
(success with any raw text, or failure of the call) and call duration,
GeminiSolver.get_answer returns a letter of the fixed alphabet A-D and is
a total function of these data (no exception escapes in the embedding);
in particular a service failure is absorbed and yields the default
label A. -/
theorem C1_selector_total (st : SolverState) (tCall : ℚ) (outc : ServiceOutcome)
    (dur : ℚ) :
    (get_answer st tCall outc dur).answer ∈ (['A', 'B', 'C', 'D'] : List Char) ∧
    (get_answer st tCall ServiceOutcome.failure dur).answer = 'A' := by
  refine ⟨?_, rfl⟩
  cases outc with
  | failure => simp [get_answer]
  | success raw => simpa [get_answer] using extract_letter_mem raw

/-- Claim C6: in the option-selection step of the loop, when the selected
label has no handle in the option-element mapping, the loop falls back to
the first entry of the mapping in iteration order as a logged
substitution; when the mapping is empty the run terminates as failed; in
particular (via solvePhase) an empty mapping ends the cycle with the
failed outcome. -/
theorem C6_fallback {β : Type} (els : List (List Char × β)) (ans : List Char)
    (hmiss : lookupDict ans els = none) :
    (∀ l h rest, els = (l, h) :: rest →
      choose_option els ans = ChooseResult.clicked l h true) ∧
    (els = [] → choose_option els ans = ChooseResult.failed) ∧
    (∀ (env : CycleEnv) (a : List Char), env.solve = some a →
      solvePhase env [] = ([], some Outcome.failed)) := by
  refine ⟨?_, ?_, ?_⟩
  · intro l h rest hels
    subst hels
    simp [choose_option, hmiss]
  · intro hels
    subst hels
    simp [choose_option, hmiss]
  · intro env a hsolve
    simp [solvePhase, hsolve, choose_option, lookupDict]

/-- Witness for C6: option handles only for A and C, selected label B:
the fallback clicks option A with the substitution flag set. -/
theorem C6_fallback_witness :
    choose_option ([(['A'], 1), (['C'], 3)] : List (List Char × Nat)) ['B']
      = ChooseResult.clicked ['A'] 1 true :=
  (C6_fallback ([(['A'], 1), (['C'], 3)] : List (List Char × Nat)) ['B']
    (by decide)).1 ['A'] 1 [(['C'], 3)] rfl

theorem scrapeOptions_go_keys {α : Type} (cards : List (Card α))
    (acc : List (List Char × α) × List (List Char × Card α))
    (hacc : ∀ kv ∈ acc.1, kv.1 ∈ SUPPORTED_OPTION_LABELS) :
    ∀ kv ∈ (cards.foldl scrapeStep acc).1, kv.1 ∈ SUPPORTED_OPTION_LABELS := by
  induction cards generalizing acc with
  | nil => simpa using hacc
  | cons card rest ih =>
    rw [List.foldl_cons]
    refine ih _ ?_
    intro kv hkv
    rw [scrapeStep] at hkv
    cases hlt : card.labelText with
    | none =>
      rw [hlt] at hkv
      exact hacc kv hkv
    | some t =>
      rw [hlt] at hkv
      simp only at hkv
      by_cases hmem : normLabel t ∈ SUPPORTED_OPTION_LABELS
      · rw [if_pos hmem] at hkv
        have hmm := List.mem_map_of_mem Prod.fst hkv
        rw [keys_dictInsert] at hmm
        rcases mem_insKey hmm with h | h
        · rcases List.mem_map.mp h with ⟨kv', hkv', hfst⟩
          rw [← hfst]
          exact hacc kv' hkv'
        · rw [h]; exact hmem
      · rw [if_neg hmem] at hkv
        exact hacc kv hkv

/-- Claim C4: on every successful extraction the option mapping's keys
all belong to the fixed alphabet A-D and the mapping is nonempty; and
when no valid label is found the extraction raises a hard failure (the
RuntimeError) instead of returning an empty mapping. -/
theorem C4_options_invariant {α : Type} (question : α) (cards : List (Card α)) :
    (∀ d, scrape_quiz_data question cards = Except.ok d →
      d.options ≠ [] ∧ ∀ kv ∈ d.options, kv.1 ∈ SUPPORTED_OPTION_LABELS) ∧
    ((scrapeOptions cards).1 = [] →
      scrape_quiz_data question cards
        = Except.error ("No valid options (A-D) found on the page.".toList)) := by
  constructor
  · intro d hd
    rw [scrape_quiz_data] at hd
    rcases hp : scrapeOptions cards with ⟨o, e⟩
    rw [hp] at hd
    cases o with
    | nil => simp at hd
    | cons kv rest =>
      simp only at hd
      injection hd with hd
      subst hd
      constructor
      · simp
      · have := scrapeOptions_go_keys cards ([], []) (by simp)
        rw [scrapeOptions] at hp
        rw [hp] at this
        exact this
  · intro h
    rw [scrape_quiz_data]
    rcases hp : scrapeOptions cards with ⟨o, e⟩
    rw [hp] at h
    simp only at h
    subst h
    rfl

/-- Witness for C4: one card labelled " a " yields the single option A,
and a page with only an unsupported label raises the hard failure. -/
theorem C4_options_invariant_witness :
    ([(['A'], 5)] : List (List Char × Nat)) ≠ [] ∧
    (['A'], 5).1 ∈ SUPPORTED_OPTION_LABELS ∧
    scrape_quiz_data (0 : Nat) [(⟨some ("e".toList), 5⟩ : Card Nat)]
      = Except.error ("No valid options (A-D) found on the page.".toList) :=
  ⟨((C4_options_invariant (0 : Nat) [(⟨some (" a ".toList), 5⟩ : Card Nat)]).1
      ⟨0, [(['A'], 5)], [(['A'], ⟨some (" a ".toList), 5⟩)]⟩ rfl).1,
    ((C4_options_invariant (0 : Nat) [(⟨some (" a ".toList), 5⟩ : Card Nat)]).1
      ⟨0, [(['A'], 5)], [(['A'], ⟨some (" a ".toList), 5⟩)]⟩ rfl).2
      (['A'], 5) (by decide),
    (C4_options_invariant (0 : Nat) [(⟨some ("e".toList), 5⟩ : Card Nat)]).2 (by decide)⟩

theorem scrapeOptions_go_same_keys {α : Type} (cards : List (Card α))
    (acc : List (List Char × α) × List (List Char × Card α))
    (hacc : acc.1.map Prod.fst = acc.2.map Prod.fst) :
    (cards.foldl scrapeStep acc).1.map Prod.fst
      = (cards.foldl scrapeStep acc).2.map Prod.fst := by
  induction cards generalizing acc with
  | nil => simpa using hacc
  | cons card rest ih =>
    rw [List.foldl_cons]
    refine ih _ ?_
    rw [scrapeStep]
    cases card.labelText with
    | none => exact hacc
    | some t =>
      simp only
      split
      · simp only [keys_dictInsert, hacc]
      · exact hacc

/-- Claim C10: the option-content mapping and the option-handle mapping
returned by a successful extraction have exactly the same keys in the
same order, so every label present in the payload has a clickable handle
for the state machine's lookup and fallback. -/
theorem C10_mappings_same_keys {α : Type} (question : α) (cards : List (Card α)) :
    ((scrapeOptions cards).1.map Prod.fst = (scrapeOptions cards).2.map Prod.fst) ∧
    (∀ d, scrape_quiz_data question cards = Except.ok d →
      d.options.map Prod.fst = d.option_elements.map Prod.fst ∧
      ∀ k, (∃ v, lookupDict k d.options = some v) →
        ∃ h, lookupDict k d.option_elements = some h) := by
  have hkeys : (scrapeOptions cards).1.map Prod.fst
      = (scrapeOptions cards).2.map Prod.fst :=
    scrapeOptions_go_same_keys cards ([], []) rfl
  refine ⟨hkeys, ?_⟩
  intro d hd
  rw [scrape_quiz_data] at hd
  rcases hp : scrapeOptions cards with ⟨o, e⟩
  rw [hp] at hd
  cases o with
  | nil => simp at hd
  | cons kv rest =>
    simp only at hd
    injection hd with hd
    subst hd
    rw [hp] at hkeys
    refine ⟨hkeys, ?_⟩
    intro k hk
    have hk' : k ∈ (kv :: rest).map Prod.fst := (lookupDict_isSome_iff _ k).mp hk
    have h2 : (kv :: rest).map Prod.fst = e.map Prod.fst := hkeys
    rw [h2] at hk'
    exact (lookupDict_isSome_iff _ k).mpr hk'

/-- Witness for C10: on a page with one card labelled a and one labelled
b, the content mapping's and handle mapping's key lists coincide. -/
theorem C10_mappings_same_keys_witness :
    (scrapeOptions [(⟨some ['a'], 7⟩ : Card Nat), ⟨some ['b'], 8⟩]).1.map Prod.fst
      = (scrapeOptions [(⟨some ['a'], 7⟩ : Card Nat), ⟨some ['b'], 8⟩]).2.map Prod.fst :=
  (C10_mappings_same_keys (0 : Nat) [(⟨some ['a'], 7⟩ : Card Nat), ⟨some ['b'], 8⟩]).1

theorem scrapeOptions_go_dom_order {α : Type} (cards : List (Card α))
    (acc : List (List Char × α) × List (List Char × Card α)) :
    (cards.foldl scrapeStep acc).1.map Prod.fst
      = (cards.filterMap validLabel).foldl insKey (acc.1.map Prod.fst) := by
  induction cards generalizing acc with
  | nil => simp
  | cons card rest ih =>
    rw [List.foldl_cons, List.filterMap_cons]
    cases hlt : card.labelText with
    | none =>
      have hstep : scrapeStep acc card = acc := by rw [scrapeStep, hlt]
      have hval : validLabel card = none := by rw [validLabel, hlt]
      rw [hstep, hval, ih]
    | some t =>
      by_cases hmem : normLabel t ∈ SUPPORTED_OPTION_LABELS
      · have hstep : scrapeStep acc card
            = (dictInsert (normLabel t) card.content acc.1,
              dictInsert (normLabel t) card acc.2) := by
          rw [scrapeStep, hlt]
          simp [hmem]
        have hval : validLabel card = some (normLabel t) := by
          rw [validLabel, hlt]
          simp [hmem]
        rw [hstep, hval, ih, List.foldl_cons, keys_dictInsert]
      · have hstep : scrapeStep acc card = acc := by
          rw [scrapeStep, hlt]
          simp [hmem]
        have hval : validLabel card = none := by
          rw [validLabel, hlt]
          simp [hmem]
        rw [hstep, hval, ih]

/-- Claim C5 counterexample: with the DOM presenting option cards
labelled b then a, the returned mapping's keys are B then A, which is not
the label alphabet's natural order (A before B): the insertion order
follows the DOM, refuting the claimed alphabet ordering. -/
theorem C5_counterexample :
    (scrapeOptions [(⟨some ['b'], 0⟩ : Card Nat), ⟨some ['a'], 1⟩]).1.map Prod.fst
        = [['B'], ['A']] ∧
    ([['B'], ['A']] : List (List Char)) ≠ [['A'], ['B']] := by
  constructor
  · rfl
  · decide

/-- Claim C5 as amended: the option mapping's keys are case-normalized to
uppercase members of the fixed alphabet, and the mapping's insertion and
iteration order is the first-occurrence order of the valid labels as the
option elements appear in the DOM, not the alphabet's natural order. -/
theorem C5_amended {α : Type} (cards : List (Card α)) :
    (scrapeOptions cards).1.map Prod.fst
        = (cards.filterMap validLabel).foldl insKey [] ∧
    ∀ kv ∈ (scrapeOptions cards).1, kv.1 ∈ SUPPORTED_OPTION_LABELS := by
  constructor
  · simpa using scrapeOptions_go_dom_order cards ([], [])
  · exact scrapeOptions_go_keys cards ([], []) (by simp)

/-- Witness for C5 as amended: the cards labelled b then a yield keys equal
to the first-occurrence accumulation of their valid labels in DOM order,
and the key B taken from the mapping is an uppercase alphabet member. -/
theorem C5_amended_witness :
    (scrapeOptions [(⟨some ['b'], 0⟩ : Card Nat), ⟨some ['a'], 1⟩]).1.map Prod.fst
        = ([(⟨some ['b'], 0⟩ : Card Nat), ⟨some ['a'], 1⟩].filterMap validLabel).foldl
            insKey [] ∧
    (['B'], 0).1 ∈ SUPPORTED_OPTION_LABELS :=
  ⟨(C5_amended [(⟨some ['b'], 0⟩ : Card Nat), ⟨some ['a'], 1⟩]).1,
    (C5_amended [(⟨some ['b'], 0⟩ : Card Nat), ⟨some ['a'], 1⟩]).2
      (['B'], 0) (by decide)⟩

/-! ### Claim C2: response parsing -/

theorem ws_toUpper {c : Char} (h : c.isWhitespace = true) : c.toUpper = c := by
  simp only [Char.isWhitespace, Bool.or_eq_true, decide_eq_true_eq] at h
  rcases h with ((h | h) | h) | h <;> subst h <;> decide

theorem ws_not_ABCD {c : Char} (h : c.isWhitespace = true) : isABCD c = false := by
  simp only [Char.isWhitespace, Bool.or_eq_true, decide_eq_true_eq] at h
  rcases h with ((h | h) | h) | h <;> subst h <;> decide

theorem ws_not_word {c : Char} (h : c.isWhitespace = true) : isWordChar c = false := by
  simp only [Char.isWhitespace, Bool.or_eq_true, decide_eq_true_eq] at h
  rcases h with ((h | h) | h) | h <;> subst h <;> decide

theorem toUpperStr_ws_id {a : List Char} (ha : ∀ c ∈ a, c.isWhitespace = true) :
    toUpperStr a = a := by
  induction a with
  | nil => rfl
  | cons c a' ih =>
    rw [toUpperStr, List.map_cons]
    rw [toUpperStr] at ih
    rw [ws_toUpper (ha c (List.mem_cons_self _ _)),
      ih (fun d hd => ha d (List.mem_cons_of_mem _ hd))]

/-- The strip of a list is the middle of the list between an all-whitespace
prefix and an all-whitespace suffix. -/
theorem pythonStrip_decomp (l : List Char) :
    ∃ a b, l = a ++ pythonStrip l ++ b ∧
      (∀ c ∈ a, c.isWhitespace = true) ∧ (∀ c ∈ b, c.isWhitespace = true) := by
  refine ⟨l.takeWhile Char.isWhitespace,
    ((l.dropWhile Char.isWhitespace).reverse.takeWhile Char.isWhitespace).reverse,
    ?_, ?_, ?_⟩
  · conv_lhs => rw [← List.takeWhile_append_dropWhile (p := Char.isWhitespace) (l := l)]
    rw [List.append_assoc]
    congr 1
    conv_lhs => rw [← List.reverse_reverse (l.dropWhile Char.isWhitespace)]
    conv_lhs =>
      rw [← List.takeWhile_append_dropWhile (p := Char.isWhitespace)
        (l := (l.dropWhile Char.isWhitespace).reverse)]
    rw [List.reverse_append]
    rfl
  · intro c hc
    exact List.mem_takeWhile_imp hc
  · intro c hc
    exact List.mem_takeWhile_imp (List.mem_reverse.mp hc)

theorem findStandalone_ws_none {b : List Char} (hb : ∀ c ∈ b, c.isWhitespace = true)
    (p : Bool) : findStandalone p b = none := by
  induction b generalizing p with
  | nil => rfl
  | cons c b' ih =>
    rw [findStandalone, ws_not_ABCD (hb c (List.mem_cons_self _ _)),
      Bool.false_and, Bool.false_and, if_neg Bool.false_ne_true]
    exact ih (fun d hd => hb d (List.mem_cons_of_mem _ hd)) _

theorem findStandalone_ws_front {a m : List Char}
    (ha : ∀ c ∈ a, c.isWhitespace = true) :
    findStandalone false (a ++ m) = findStandalone false m := by
  induction a with
  | nil => rfl
  | cons c a' ih =>
    rw [List.cons_append, findStandalone,
      ws_not_ABCD (ha c (List.mem_cons_self _ _)),
      ws_not_word (ha c (List.mem_cons_self _ _)),
      Bool.false_and, Bool.false_and, if_neg Bool.false_ne_true]
    exact ih (fun d hd => ha d (List.mem_cons_of_mem _ hd))

theorem nextWord_ws_append {m b : List Char} (hb : ∀ c ∈ b, c.isWhitespace = true) :
    nextWord (m ++ b) = nextWord m := by
  cases m with
  | nil =>
    cases b with
    | nil => rfl
    | cons d b' =>
      simp only [List.nil_append, nextWord]
      exact ws_not_word (hb d (List.mem_cons_self _ _))
  | cons d m' => rfl

theorem findStandalone_ws_suffix {m b : List Char}
    (hb : ∀ c ∈ b, c.isWhitespace = true) (p : Bool) :
    findStandalone p (m ++ b) = findStandalone p m := by
  induction m generalizing p with
  | nil => exact findStandalone_ws_none hb p
  | cons c m' ih =>
    rw [List.cons_append, findStandalone, findStandalone, nextWord_ws_append hb]
    split
    · rfl
    · exact ih _

theorem firstABCD_ws_none {b : List Char} (hb : ∀ c ∈ b, c.isWhitespace = true) :
    firstABCD b = none := by
  induction b with
  | nil => rfl
  | cons c b' ih =>
    rw [firstABCD, ws_not_ABCD (hb c (List.mem_cons_self _ _)),
      if_neg Bool.false_ne_true]
    exact ih (fun d hd => hb d (List.mem_cons_of_mem _ hd))

theorem firstABCD_ws_front {a m : List Char}
    (ha : ∀ c ∈ a, c.isWhitespace = true) :
    firstABCD (a ++ m) = firstABCD m := by
  induction a with
  | nil => rfl
  | cons c a' ih =>
    rw [List.cons_append, firstABCD, ws_not_ABCD (ha c (List.mem_cons_self _ _)),
      if_neg Bool.false_ne_true]
    exact ih (fun d hd => ha d (List.mem_cons_of_mem _ hd))

theorem firstABCD_ws_suffix {m b : List Char}
    (hb : ∀ c ∈ b, c.isWhitespace = true) :
    firstABCD (m ++ b) = firstABCD m := by
  induction m with
  | nil => exact firstABCD_ws_none hb
  | cons c m' ih =>
    rw [List.cons_append, firstABCD, firstABCD]
    split
    · rfl
    · exact ih

/-- Claim C2: for every raw service response the parsed label is exactly
the spec's procedure (uppercase the response, take a standalone A-D token
at word boundaries, else the first A-D character, else the default A): the
additional strip the code performs before uppercasing does not change the
result. In particular the raw response consisting of two spaces, b, space,
newline parses to B, and the empty response parses to A. -/
theorem C2_response_parsing (raw : List Char) :
    extract_letter raw = specParseLabel raw ∧
    extract_letter ("  b \n".toList) = 'B' ∧
    extract_letter ([] : List Char) = 'A' := by
  refine ⟨?_, by decide, by decide⟩
  by_cases hraw : raw = []
  · subst hraw; decide
  · rw [extract_letter, if_neg hraw, specParseLabel]
    obtain ⟨a, b, hdecomp, ha, hb⟩ := pythonStrip_decomp raw
    have hub : toUpperStr raw
        = a ++ (toUpperStr (pythonStrip raw) ++ b) := by
      conv_lhs => rw [hdecomp]
      rw [toUpperStr, List.map_append, List.map_append, ← toUpperStr, ← toUpperStr,
        ← toUpperStr, toUpperStr_ws_id ha, toUpperStr_ws_id hb, List.append_assoc]
    rw [hub, findStandalone_ws_front ha, findStandalone_ws_suffix hb,
      firstABCD_ws_front ha, firstABCD_ws_suffix hb]

/-! ### Claim C3: rate limiting -/

/-- Claim C3 counterexample: with interval 2 and a fresh solver (last
request time 0), a first get_answer call entered at time 100 whose service
request fails leaves the recorded last-request time untouched and returns
at time 100; a second call entered right then issues its request
immediately: both the entry-time gap and the request-time gap between the
two calls are 0, not at least the configured interval 2. The same
entry-time gap of 0 also occurs when the first call succeeds
instantaneously, so the claimed bound fails as stated. -/
theorem C3_counterexample :
    (get_answer ⟨2, 0⟩ 100 ServiceOutcome.failure 0).endTime = 100 ∧
    (get_answer (get_answer ⟨2, 0⟩ 100 ServiceOutcome.failure 0).state 100
        ServiceOutcome.failure 0).reqTime
      - (get_answer ⟨2, 0⟩ 100 ServiceOutcome.failure 0).reqTime = 0 ∧
    ¬ ((2 : ℚ) ≤ 0) ∧
    (get_answer ⟨2, 0⟩ 100 (ServiceOutcome.success ['B']) 0).endTime - 100 = 0 := by
  refine ⟨?_, ?_, by norm_num, ?_⟩ <;>
    simp [get_answer, requestTime] <;> norm_num

/-- Claim C3 as amended: each call sleeps for exactly the remaining
deficit when the elapsed time since the recorded last-request time is
less than the configured interval; and when the first call's service
request succeeds (taking a nonnegative duration), the second call's
request-issuance time is at least the first call's request-issuance time
plus the configured interval. When the first call fails the recorded
last-request time is not updated and no such spacing is guaranteed. -/
theorem C3_amended (st : SolverState) (tCall : ℚ) (raw : List Char) (dur : ℚ)
    (t2 : ℚ) (outc2 : ServiceOutcome) (dur2 : ℚ)
    (hdur : 0 ≤ dur) (hdef : tCall - st.last < st.interval) :
    requestTime st tCall - tCall = st.interval - (tCall - st.last) ∧
    (get_answer (get_answer st tCall (ServiceOutcome.success raw) dur).state t2
        outc2 dur2).reqTime
      - (get_answer st tCall (ServiceOutcome.success raw) dur).reqTime
      ≥ st.interval := by
  constructor
  · rw [requestTime, if_pos (by linarith)]
    ring
  · have hstate : (get_answer st tCall (ServiceOutcome.success raw) dur).state
        = ⟨st.interval, requestTime st tCall + dur⟩ := rfl
    have hreq1 : (get_answer st tCall (ServiceOutcome.success raw) dur).reqTime
        = requestTime st tCall := rfl
    have hreq2 : ∀ (s : SolverState),
        (get_answer s t2 outc2 dur2).reqTime = requestTime s t2 := by
      intro s
      cases outc2 <;> rfl
    rw [hstate, hreq2, hreq1]
    rw [requestTime]
    split_ifs with h
    · simp only
      linarith
    · push_neg at h
      simp only at h ⊢
      linarith

/-- Witness for C3 as amended: interval 2, last-request time 0, first
call entered at time 1 with an instantaneous successful request, second
call entered at time 10. -/
theorem C3_amended_witness :
    requestTime ⟨2, 0⟩ 1 - 1 = (⟨2, 0⟩ : SolverState).interval - (1 - (⟨2, 0⟩ : SolverState).last) ∧
    (get_answer (get_answer ⟨2, 0⟩ 1 (ServiceOutcome.success ['B']) 0).state 10
        ServiceOutcome.failure 0).reqTime
      - (get_answer ⟨2, 0⟩ 1 (ServiceOutcome.success ['B']) 0).reqTime
      ≥ (⟨2, 0⟩ : SolverState).interval :=
  C3_amended ⟨2, 0⟩ 1 ['B'] 0 10 ServiceOutcome.failure 0 (by norm_num) (by norm_num)

/-! ### Claim C9: normalization idempotence -/

theorem collAux_dropWhile (rest : List Char) (h : collAux false rest = true) :
    rest.dropWhile (fun x => !x.isWhitespace) = [] ∨
    ∃ d', rest.dropWhile (fun x => !x.isWhitespace) = ' ' :: d' ∧
      collAux true d' = true := by
  induction rest with
  | nil => left; rfl
  | cons c r' ih =>
    rw [collAux] at h
    rw [List.dropWhile_cons]
    by_cases hsp : c = ' '
    · subst hsp
      rw [if_pos rfl] at h
      rw [if_neg (by decide)]
      right
      refine ⟨r', rfl, ?_⟩
      simpa using h
    · rw [if_neg hsp] at h
      simp only [Bool.and_eq_true] at h
      rw [if_pos h.1]
      exact ih h.2

theorem splitWs_ne_nil (l : List Char) (h : collAux true l = true) :
    splitWs l ≠ [] := by
  cases l with
  | nil => simp [collAux] at h
  | cons c rest =>
    rw [collAux] at h
    by_cases hsp : c = ' '
    · rw [if_pos hsp] at h
      simp at h
    · rw [if_neg hsp] at h
      simp only [Bool.and_eq_true] at h
      have hcw : c.isWhitespace = false := by
        have := h.1
        revert this
        cases c.isWhitespace <;> simp
      rw [splitWs, if_neg (by simp [hcw])]
      simp

theorem joinSpace_cons_ne_nil (x : List Char) (ys : List (List Char)) (h : ys ≠ []) :
    joinSpace (x :: ys) = x ++ ' ' :: joinSpace ys := by
  cases ys with
  | nil => exact absurd rfl h
  | cons y ys' => rfl

theorem joinSpace_splitWs_of_collAux : ∀ (n : ℕ) (l : List Char), l.length ≤ n →
    collAux true l = true → joinSpace (splitWs l) = l := by
  intro n
  induction n with
  | zero =>
    intro l hl hc
    have : l = [] := List.length_eq_zero.mp (Nat.le_zero.mp hl)
    subst this
    simp [collAux] at hc
  | succ n ih =>
    intro l hl hc
    cases l with
    | nil => simp [collAux] at hc
    | cons c rest =>
      rw [collAux] at hc
      by_cases hsp : c = ' '
      · rw [if_pos hsp] at hc
        simp at hc
      · rw [if_neg hsp] at hc
        simp only [Bool.and_eq_true] at hc
        obtain ⟨hcw, hrest⟩ := hc
        have hcw' : c.isWhitespace = false := by
          revert hcw
          cases c.isWhitespace <;> simp
        rw [splitWs, if_neg (by simp [hcw'])]
        have hrestsplit := List.takeWhile_append_dropWhile
          (p := fun x => !x.isWhitespace) (l := rest)
        rcases collAux_dropWhile rest hrest with hd | ⟨d', hd, hd'⟩
        · rw [hd]
          have hjoin : joinSpace [c :: rest.takeWhile (fun x => !x.isWhitespace)]
              = c :: rest.takeWhile (fun x => !x.isWhitespace) := rfl
          rw [show splitWs [] = [] from by simp [splitWs], hjoin]
          rw [hd, List.append_nil] at hrestsplit
          rw [hrestsplit]
        · rw [hd]
          have hsw : splitWs (' ' :: d') = splitWs d' := by
            rw [splitWs, if_pos (by decide)]
          rw [hsw]
          have hne := splitWs_ne_nil d' hd'
          rw [joinSpace_cons_ne_nil _ _ hne]
          have hlen : d'.length ≤ n := by
            have h1 : rest.length
                = (rest.takeWhile (fun x => !x.isWhitespace)).length + (d'.length + 1) := by
              conv_lhs => rw [← hrestsplit]
              rw [hd]
              simp [List.length_append]
            simp only [List.length_cons] at hl
            omega
          rw [ih d' hlen hd']
          conv_rhs => rw [← hrestsplit, hd]
          simp

theorem normalizeWs_collapsed (l : List Char) (h : collapsedB l = true) :
    normalizeWs l = l := by
  rw [collapsedB, Bool.or_eq_true] at h
  rcases h with h | h
  · have : l = [] := by simpa using h
    subst this
    rw [normalizeWs, show splitWs [] = [] from by simp [splitWs]]
    rfl
  · exact joinSpace_splitWs_of_collAux l.length l le_rfl h

/-- Claim C9: the text normalization of parse_math_expressions is the
identity on already-normalized input: a plain text fragment with no
superscript or subscript markup whose whitespace is already collapsed
(single spaces between nonempty whitespace-free words, none leading or
trailing) passes through the markup rewriting, the flattening and the
whitespace collapsing unchanged. -/
theorem C9_normalize_idempotent (s : List Char) (h : collapsedB s = true) :
    parse_math_expressions [Piece.text s] = s := by
  show normalizeWs (joinSpace [s]) = s
  rw [show joinSpace [s] = s from rfl]
  exact normalizeWs_collapsed s h

/-- Witness for C9: normalizing the already-normalized text x^2 yields
x^2 unchanged. -/
theorem C9_normalize_idempotent_witness :
    collapsedB ("x^2".toList) = true ∧
    parse_math_expressions [Piece.text ("x^2".toList)] = "x^2".toList :=
  ⟨by decide, C9_normalize_idempotent ("x^2".toList) (by decide)⟩

/-! ### Claims C7 and C8: loop trace lemmas -/

@[simp] theorem scrapeGuarded_nil (b : Bool) : scrapeGuarded b [] = true := rfl

@[simp] theorem scrapeGuarded_cons_checkF (b : Bool) (rest : List Ev) :
    scrapeGuarded b (Ev.check false :: rest) = scrapeGuarded true rest := by
  simp [scrapeGuarded]

@[simp] theorem scrapeGuarded_cons_checkT (b : Bool) (rest : List Ev) :
    scrapeGuarded b (Ev.check true :: rest) = scrapeGuarded false rest := by
  simp [scrapeGuarded]

@[simp] theorem scrapeGuarded_cons_scrape (b : Bool) (rest : List Ev) :
    scrapeGuarded b (Ev.scrape :: rest) = (b && scrapeGuarded false rest) := by
  simp [scrapeGuarded]

@[simp] theorem scrapeGuarded_cons_clickOption (b : Bool) (rest : List Ev) :
    scrapeGuarded b (Ev.clickOption :: rest) = scrapeGuarded false rest := by
  simp [scrapeGuarded]

@[simp] theorem scrapeGuarded_cons_clickAction (b : Bool) (rest : List Ev) :
    scrapeGuarded b (Ev.clickAction :: rest) = scrapeGuarded false rest := by
  simp [scrapeGuarded]

@[simp] theorem scrapeGuarded_cons_term (b : Bool) (o : Outcome) (rest : List Ev) :
    scrapeGuarded b (Ev.term o :: rest) = scrapeGuarded false rest := by
  simp [scrapeGuarded]

@[simp] theorem flagAfter_nil (b : Bool) : flagAfter b [] = b := rfl

@[simp] theorem flagAfter_cons_checkF (b : Bool) (rest : List Ev) :
    flagAfter b (Ev.check false :: rest) = flagAfter true rest := by
  simp [flagAfter]

@[simp] theorem flagAfter_cons_checkT (b : Bool) (rest : List Ev) :
    flagAfter b (Ev.check true :: rest) = flagAfter false rest := by
  simp [flagAfter]

@[simp] theorem flagAfter_cons_scrape (b : Bool) (rest : List Ev) :
    flagAfter b (Ev.scrape :: rest) = flagAfter false rest := by
  simp [flagAfter]

@[simp] theorem flagAfter_cons_clickOption (b : Bool) (rest : List Ev) :
    flagAfter b (Ev.clickOption :: rest) = flagAfter false rest := by
  simp [flagAfter]

@[simp] theorem flagAfter_cons_clickAction (b : Bool) (rest : List Ev) :
    flagAfter b (Ev.clickAction :: rest) = flagAfter false rest := by
  simp [flagAfter]

@[simp] theorem flagAfter_cons_term (b : Bool) (o : Outcome) (rest : List Ev) :
    flagAfter b (Ev.term o :: rest) = flagAfter false rest := by
  simp [flagAfter]

@[simp] theorem checkTrueFree_nil : checkTrueFree [] = true := rfl

@[simp] theorem checkTrueFree_cons_checkF (rest : List Ev) :
    checkTrueFree (Ev.check false :: rest) = checkTrueFree rest := by
  simp [checkTrueFree]

@[simp] theorem checkTrueFree_cons_checkT (rest : List Ev) :
    checkTrueFree (Ev.check true :: rest) = false := by
  simp [checkTrueFree]

@[simp] theorem checkTrueFree_cons_scrape (rest : List Ev) :
    checkTrueFree (Ev.scrape :: rest) = checkTrueFree rest := by
  simp [checkTrueFree]

@[simp] theorem checkTrueFree_cons_clickOption (rest : List Ev) :
    checkTrueFree (Ev.clickOption :: rest) = checkTrueFree rest := by
  simp [checkTrueFree]

@[simp] theorem checkTrueFree_cons_clickAction (rest : List Ev) :
    checkTrueFree (Ev.clickAction :: rest) = checkTrueFree rest := by
  simp [checkTrueFree]

@[simp] theorem checkTrueFree_cons_term (o : Outcome) (rest : List Ev) :
    checkTrueFree (Ev.term o :: rest) = checkTrueFree rest := by
  simp [checkTrueFree]

@[simp] theorem stopOk_nil : stopOk [] = true := rfl

@[simp] theorem stopOk_cons_checkF (rest : List Ev) :
    stopOk (Ev.check false :: rest) = stopOk rest := by
  simp [stopOk]

@[simp] theorem stopOk_cons_checkT (rest : List Ev) :
    stopOk (Ev.check true :: rest) = decide (rest = [Ev.term Outcome.stopped]) := by
  simp [stopOk]

@[simp] theorem stopOk_cons_scrape (rest : List Ev) :
    stopOk (Ev.scrape :: rest) = stopOk rest := by
  simp [stopOk]

@[simp] theorem stopOk_cons_clickOption (rest : List Ev) :
    stopOk (Ev.clickOption :: rest) = stopOk rest := by
  simp [stopOk]

@[simp] theorem stopOk_cons_clickAction (rest : List Ev) :
    stopOk (Ev.clickAction :: rest) = stopOk rest := by
  simp [stopOk]

@[simp] theorem stopOk_cons_term (o : Outcome) (rest : List Ev) :
    stopOk (Ev.term o :: rest) = stopOk rest := by
  simp [stopOk]

@[simp] theorem actionsSeparated_nil (a : Bool) : actionsSeparated a [] = true := rfl

@[simp] theorem actionsSeparated_cons_check (a b : Bool) (rest : List Ev) :
    actionsSeparated a (Ev.check b :: rest) = actionsSeparated false rest := rfl

@[simp] theorem actionsSeparated_cons_scrape (a : Bool) (rest : List Ev) :
    actionsSeparated a (Ev.scrape :: rest) = actionsSeparated a rest := rfl

@[simp] theorem actionsSeparated_cons_clickOption (a : Bool) (rest : List Ev) :
    actionsSeparated a (Ev.clickOption :: rest) = actionsSeparated a rest := rfl

@[simp] theorem actionsSeparated_cons_clickAction (a : Bool) (rest : List Ev) :
    actionsSeparated a (Ev.clickAction :: rest) = (!a && actionsSeparated true rest) := rfl

@[simp] theorem actionsSeparated_cons_term (a : Bool) (o : Outcome) (rest : List Ev) :
    actionsSeparated a (Ev.term o :: rest) = actionsSeparated a rest := rfl

@[simp] theorem armAfter_nil (a : Bool) : armAfter a [] = a := rfl

@[simp] theorem armAfter_cons_check (a b : Bool) (rest : List Ev) :
    armAfter a (Ev.check b :: rest) = armAfter false rest := rfl

@[simp] theorem armAfter_cons_scrape (a : Bool) (rest : List Ev) :
    armAfter a (Ev.scrape :: rest) = armAfter a rest := rfl

@[simp] theorem armAfter_cons_clickOption (a : Bool) (rest : List Ev) :
    armAfter a (Ev.clickOption :: rest) = armAfter a rest := rfl

@[simp] theorem armAfter_cons_clickAction (a : Bool) (rest : List Ev) :
    armAfter a (Ev.clickAction :: rest) = armAfter true rest := rfl

@[simp] theorem armAfter_cons_term (a : Bool) (o : Outcome) (rest : List Ev) :
    armAfter a (Ev.term o :: rest) = armAfter a rest := rfl

theorem scrapeGuarded_append (l m : List Ev) (b : Bool) :
    scrapeGuarded b (l ++ m)
      = (scrapeGuarded b l && scrapeGuarded (flagAfter b l) m) := by
  induction l generalizing b with
  | nil => simp
  | cons e l' ih =>
    cases e with
    | check b' =>
      cases b' <;> simp [ih]
    | scrape => simp [ih, Bool.and_assoc]
    | clickOption => simp [ih]
    | clickAction => simp [ih]
    | term o => simp [ih]

theorem actionsSeparated_append (l m : List Ev) (a : Bool) :
    actionsSeparated a (l ++ m)
      = (actionsSeparated a l && actionsSeparated (armAfter a l) m) := by
  induction l generalizing a with
  | nil => simp
  | cons e l' ih =>
    cases e with
    | check b' => simp [ih]
    | scrape => simp [ih]
    | clickOption => simp [ih]
    | clickAction => simp [ih, Bool.and_assoc]
    | term o => simp [ih]

theorem checkTrueFree_append (l m : List Ev) :
    checkTrueFree (l ++ m) = (checkTrueFree l && checkTrueFree m) := by
  induction l with
  | nil => simp
  | cons e l' ih =>
    cases e with
    | check b' => cases b' <;> simp [ih]
    | scrape => simp [ih]
    | clickOption => simp [ih]
    | clickAction => simp [ih]
    | term o => simp [ih]

theorem stopOk_append_of_ctf {l : List Ev} (h : checkTrueFree l = true) (m : List Ev) :
    stopOk (l ++ m) = stopOk m := by
  induction l with
  | nil => simp
  | cons e l' ih =>
    cases e with
    | check b' =>
      cases b'
      · simp only [checkTrueFree_cons_checkF] at h
        simpa using ih h
      · simp at h
    | scrape => simp only [checkTrueFree_cons_scrape] at h; simpa using ih h
    | clickOption =>
      simp only [checkTrueFree_cons_clickOption] at h
      simpa using ih h
    | clickAction =>
      simp only [checkTrueFree_cons_clickAction] at h
      simpa using ih h
    | term o => simp only [checkTrueFree_cons_term] at h; simpa using ih h

theorem pollLoop_scrapeGuarded (mode : Mode) (polls : List PollObs) (b : Bool) :
    scrapeGuarded b (pollLoop mode polls).1 = true := by
  induction polls generalizing b with
  | nil => simp [pollLoop]
  | cons p rest ih =>
    obtain ⟨pst, pbf, patt⟩ := p
    cases pst
    · cases patt <;> cases pbf <;> cases mode <;> simp [pollLoop, ih]
    · simp [pollLoop]

theorem pollLoop_ctf (mode : Mode) (polls : List PollObs)
    (h : (pollLoop mode polls).2 ≠ PollExit.stoppedP) :
    checkTrueFree (pollLoop mode polls).1 = true := by
  induction polls with
  | nil => simp [pollLoop]
  | cons p rest ih =>
    obtain ⟨pst, pbf, patt⟩ := p
    cases pst
    · cases patt <;> cases pbf <;> cases mode <;> simp_all [pollLoop]
    · exfalso
      apply h
      simp [pollLoop]

theorem pollLoop_stopOk (mode : Mode) (polls : List PollObs)
    (h : (pollLoop mode polls).2 = PollExit.stoppedP) :
    stopOk ((pollLoop mode polls).1 ++ [Ev.term Outcome.stopped]) = true := by
  induction polls with
  | nil => simp [pollLoop] at h
  | cons p rest ih =>
    obtain ⟨pst, pbf, patt⟩ := p
    cases pst
    · cases patt <;> cases pbf <;> cases mode <;> simp_all [pollLoop]
    · simp [pollLoop]

theorem pollLoop_actionsSep (mode : Mode) (polls : List PollObs) (a : Bool) :
    actionsSeparated a (pollLoop mode polls).1 = true := by
  induction polls generalizing a with
  | nil => simp [pollLoop]
  | cons p rest ih =>
    obtain ⟨pst, pbf, patt⟩ := p
    cases pst
    · cases patt <;> cases pbf <;> cases mode <;> simp [pollLoop, ih]
    · simp [pollLoop]

theorem pollLoop_arm_found (mode : Mode) (polls : List PollObs)
    (els : List (List Char × Nat)) (h : (pollLoop mode polls).2 = PollExit.found els)
    (a : Bool) : armAfter a (pollLoop mode polls).1 = false := by
  induction polls generalizing a with
  | nil => simp [pollLoop] at h
  | cons p rest ih =>
    obtain ⟨pst, pbf, patt⟩ := p
    cases pst
    · cases patt <;> cases pbf <;> cases mode <;> simp_all [pollLoop]
    · simp [pollLoop] at h

/-- The possible event traces of the solve-and-click part of a cycle,
with the loop result pinned where a stop check occurs. -/
theorem solvePhase_shape (env : CycleEnv) (els : List (List Char × Nat)) :
    (solvePhase env els).1 = [] ∨
    (solvePhase env els).1 = [Ev.clickOption] ∨
    (solvePhase env els).1 = [Ev.clickOption, Ev.clickAction] ∨
    ((solvePhase env els).1 = [Ev.clickOption, Ev.clickAction, Ev.check true] ∧
      (solvePhase env els).2 = some Outcome.stopped) ∨
    ((solvePhase env els).1 = [Ev.clickOption, Ev.clickAction, Ev.check false] ∧
      (solvePhase env els).2 = none) := by
  obtain ⟨mode, stopTop, polls, solve, waitClick, clickOpt, stdFind, stdClickOk,
    stdStopAfter, boostReady, boostClickOk⟩ := env
  cases solve with
  | none => simp [solvePhase]
  | some a =>
    cases hch : choose_option els a with
    | failed => simp [solvePhase, hch]
    | clicked l h sub =>
      cases waitClick <;> cases clickOpt <;> cases mode <;> cases stdFind <;>
        cases stdClickOk <;> cases stdStopAfter <;> cases boostReady <;>
        cases boostClickOk <;>
        simp [solvePhase, hch, clickPhase, actionPhase] <;>
        split_ifs <;> simp

theorem solvePhase_sg (env : CycleEnv) (els : List (List Char × Nat)) (b : Bool) :
    scrapeGuarded b (solvePhase env els).1 = true := by
  rcases solvePhase_shape env els with h | h | h | ⟨h, _⟩ | ⟨h, _⟩ <;> rw [h] <;> simp

theorem solvePhase_ctf (env : CycleEnv) (els : List (List Char × Nat))
    (h : (solvePhase env els).2 = none) :
    checkTrueFree (solvePhase env els).1 = true := by
  rcases solvePhase_shape env els with hs | hs | hs | ⟨hs, hr⟩ | ⟨hs, hr⟩ <;> rw [hs] <;>
    simp
  rw [hr] at h
  exact Option.noConfusion h

theorem solvePhase_stopOk (env : CycleEnv) (els : List (List Char × Nat)) (o : Outcome)
    (h : (solvePhase env els).2 = some o) :
    stopOk ((solvePhase env els).1 ++ [Ev.term o]) = true := by
  rcases solvePhase_shape env els with hs | hs | hs | ⟨hs, hr⟩ | ⟨hs, hr⟩ <;> rw [hs] <;>
    simp
  rw [hr] at h
  injection h with h
  exact h.symm

theorem solvePhase_actionsSep (env : CycleEnv) (els : List (List Char × Nat)) :
    actionsSeparated false (solvePhase env els).1 = true := by
  rcases solvePhase_shape env els with h | h | h | ⟨h, _⟩ | ⟨h, _⟩ <;> rw [h] <;> simp

theorem cycle_scrapeGuarded (env : CycleEnv) (b : Bool) :
    scrapeGuarded b (cycle env).1 = true := by
  rw [cycle]
  by_cases hst : env.stopTop = true
  · rw [if_pos hst]
    simp
  · rw [if_neg hst]
    cases hpe : (pollLoop env.mode env.polls).2 with
    | found els =>
      show scrapeGuarded b (Ev.check false :: (pollLoop env.mode env.polls).1
        ++ (solvePhase env els).1) = true
      rw [List.cons_append, scrapeGuarded_cons_checkF, scrapeGuarded_append]
      simp [pollLoop_scrapeGuarded, solvePhase_sg]
    | stoppedP =>
      show scrapeGuarded b (Ev.check false :: (pollLoop env.mode env.polls).1) = true
      simp [pollLoop_scrapeGuarded]
    | completedP =>
      show scrapeGuarded b (Ev.check false :: (pollLoop env.mode env.polls).1) = true
      simp [pollLoop_scrapeGuarded]
    | failedP =>
      show scrapeGuarded b (Ev.check false :: (pollLoop env.mode env.polls).1) = true
      simp [pollLoop_scrapeGuarded]
    | disconnectedP =>
      show scrapeGuarded b (Ev.check false :: (pollLoop env.mode env.polls).1) = true
      simp [pollLoop_scrapeGuarded]
    | timedOutP =>
      show scrapeGuarded b (Ev.check false :: (pollLoop env.mode env.polls).1) = true
      simp [pollLoop_scrapeGuarded]

theorem cycle_ctf (env : CycleEnv) (h : (cycle env).2 = none) :
    checkTrueFree (cycle env).1 = true := by
  rw [cycle] at h ⊢
  by_cases hst : env.stopTop = true
  · rw [if_pos hst] at h
    exact Option.noConfusion h
  · rw [if_neg hst] at h ⊢
    cases hpe : (pollLoop env.mode env.polls).2 with
    | found els =>
      rw [hpe] at h
      have h2 : (solvePhase env els).2 = none := h
      show checkTrueFree (Ev.check false :: (pollLoop env.mode env.polls).1
        ++ (solvePhase env els).1) = true
      rw [List.cons_append, checkTrueFree_cons_checkF, checkTrueFree_append]
      have hctf1 := pollLoop_ctf env.mode env.polls (by simp [hpe])
      simp [hctf1, solvePhase_ctf env els h2]
    | stoppedP =>
      rw [hpe] at h
      exact Option.noConfusion h
    | completedP =>
      rw [hpe] at h
      exact Option.noConfusion h
    | failedP =>
      rw [hpe] at h
      exact Option.noConfusion h
    | disconnectedP =>
      rw [hpe] at h
      exact Option.noConfusion h
    | timedOutP =>
      rw [hpe] at h
      exact Option.noConfusion h

theorem cycle_stopOk (env : CycleEnv) (o : Outcome) (h : (cycle env).2 = some o) :
    stopOk ((cycle env).1 ++ [Ev.term o]) = true := by
  rw [cycle] at h ⊢
  by_cases hst : env.stopTop = true
  · rw [if_pos hst] at h ⊢
    have h2 : some Outcome.stopped = some o := h
    injection h2 with h3
    subst h3
    decide
  · rw [if_neg hst] at h ⊢
    cases hpe : (pollLoop env.mode env.polls).2 with
    | found els =>
      rw [hpe] at h
      have h2 : (solvePhase env els).2 = some o := h
      show stopOk ((Ev.check false :: (pollLoop env.mode env.polls).1
        ++ (solvePhase env els).1) ++ [Ev.term o]) = true
      rw [List.cons_append, List.cons_append, stopOk_cons_checkF, List.append_assoc,
        stopOk_append_of_ctf (pollLoop_ctf _ _ (by simp [hpe]))]
      exact solvePhase_stopOk env els o h2
    | stoppedP =>
      rw [hpe] at h
      have h2 : some Outcome.stopped = some o := h
      injection h2 with h3
      subst h3
      show stopOk ((Ev.check false :: (pollLoop env.mode env.polls).1)
        ++ [Ev.term Outcome.stopped]) = true
      rw [List.cons_append, stopOk_cons_checkF]
      exact pollLoop_stopOk _ _ hpe
    | completedP =>
      show stopOk ((Ev.check false :: (pollLoop env.mode env.polls).1)
        ++ [Ev.term o]) = true
      rw [List.cons_append, stopOk_cons_checkF,
        stopOk_append_of_ctf (pollLoop_ctf _ _ (by simp [hpe]))]
      simp
    | failedP =>
      show stopOk ((Ev.check false :: (pollLoop env.mode env.polls).1)
        ++ [Ev.term o]) = true
      rw [List.cons_append, stopOk_cons_checkF,
        stopOk_append_of_ctf (pollLoop_ctf _ _ (by simp [hpe]))]
      simp
    | disconnectedP =>
      show stopOk ((Ev.check false :: (pollLoop env.mode env.polls).1)
        ++ [Ev.term o]) = true
      rw [List.cons_append, stopOk_cons_checkF,
        stopOk_append_of_ctf (pollLoop_ctf _ _ (by simp [hpe]))]
      simp
    | timedOutP =>
      show stopOk ((Ev.check false :: (pollLoop env.mode env.polls).1)
        ++ [Ev.term o]) = true
      rw [List.cons_append, stopOk_cons_checkF,
        stopOk_append_of_ctf (pollLoop_ctf _ _ (by simp [hpe]))]
      simp

theorem cycle_actionsSep (env : CycleEnv) (a : Bool) :
    actionsSeparated a (cycle env).1 = true := by
  rw [cycle]
  by_cases hst : env.stopTop = true
  · rw [if_pos hst]
    simp
  · rw [if_neg hst]
    cases hpe : (pollLoop env.mode env.polls).2 with
    | found els =>
      show actionsSeparated a (Ev.check false :: (pollLoop env.mode env.polls).1
        ++ (solvePhase env els).1) = true
      rw [List.cons_append, actionsSeparated_cons_check, actionsSeparated_append,
        pollLoop_arm_found _ _ _ hpe false]
      simp [pollLoop_actionsSep, solvePhase_actionsSep]
    | stoppedP =>
      show actionsSeparated a (Ev.check false :: (pollLoop env.mode env.polls).1) = true
      simp [pollLoop_actionsSep]
    | completedP =>
      show actionsSeparated a (Ev.check false :: (pollLoop env.mode env.polls).1) = true
      simp [pollLoop_actionsSep]
    | failedP =>
      show actionsSeparated a (Ev.check false :: (pollLoop env.mode env.polls).1) = true
      simp [pollLoop_actionsSep]
    | disconnectedP =>
      show actionsSeparated a (Ev.check false :: (pollLoop env.mode env.polls).1) = true
      simp [pollLoop_actionsSep]
    | timedOutP =>
      show actionsSeparated a (Ev.check false :: (pollLoop env.mode env.polls).1) = true
      simp [pollLoop_actionsSep]

theorem run_scrapeGuarded (envs : List CycleEnv) (b : Bool) :
    scrapeGuarded b (run envs) = true := by
  induction envs generalizing b with
  | nil => simp [run]
  | cons e rest ih =>
    rw [run]
    cases hr : (cycle e).2 with
    | some o =>
      show scrapeGuarded b ((cycle e).1 ++ [Ev.term o]) = true
      rw [scrapeGuarded_append]
      simp [cycle_scrapeGuarded]
    | none =>
      show scrapeGuarded b ((cycle e).1 ++ run rest) = true
      rw [scrapeGuarded_append]
      simp [cycle_scrapeGuarded, ih]

theorem run_stopOk (envs : List CycleEnv) : stopOk (run envs) = true := by
  induction envs with
  | nil => simp [run]
  | cons e rest ih =>
    rw [run]
    cases hr : (cycle e).2 with
    | some o => exact cycle_stopOk e o hr
    | none =>
      show stopOk ((cycle e).1 ++ run rest) = true
      rw [stopOk_append_of_ctf (cycle_ctf e hr)]
      exact ih

theorem run_actionsSep (envs : List CycleEnv) (a : Bool) :
    actionsSeparated a (run envs) = true := by
  induction envs generalizing a with
  | nil => simp [run]
  | cons e rest ih =>
    rw [run]
    cases hr : (cycle e).2 with
    | some o =>
      show actionsSeparated a ((cycle e).1 ++ [Ev.term o]) = true
      rw [actionsSeparated_append]
      simp [cycle_actionsSep]
    | none =>
      show actionsSeparated a ((cycle e).1 ++ run rest) = true
      rw [actionsSeparated_append]
      simp [cycle_actionsSep, ih]

/-- Claim C8: in every trace of the automation loop, every scrape attempt
is immediately preceded by a stop check that observed the signal unset
(the signal is checked before each scrape attempt); once a stop check
observes the signal set, the only remaining event is the stopped-by-user
termination, so no new scrape cycle ever begins after the signal is
observed; and any two action-button clicks are separated by a stop check,
so a run past its last checkpoint commits at most one more in-flight
action click before the next check terminates it. -/
theorem C8_cancellation (envs : List CycleEnv) :
    scrapeGuarded false (run envs) = true ∧
    stopOk (run envs) = true ∧
    actionsSeparated false (run envs) = true :=
  ⟨run_scrapeGuarded envs false, run_stopOk envs, run_actionsSep envs false⟩

/-- Claim C7: in any cycle that reaches the option-click step (the stop
checks passed, a scrape succeeded, the solver produced an answer, and an
option element was resolved), a staleness failure while waiting for the
chosen option to become clickable, or while clicking it, makes the cycle
loop back (the cycle's result is none, not a termination), and the run
continues with the next cycle, which begins again at the wait-for-question
step: the staleness failure never terminates the run. -/
theorem C7_stale_restarts (env : CycleEnv) (els : List (List Char × Nat))
    (rest : List CycleEnv)
    (hTop : env.stopTop = false)
    (hfound : (pollLoop env.mode env.polls).2 = PollExit.found els)
    (a : List Char) (hsolve : env.solve = some a)
    (hchoose : choose_option els a ≠ ChooseResult.failed)
    (hstale : env.waitClick = WaitClickRes.staleW ∨
      (env.waitClick = WaitClickRes.okW ∧ env.clickOpt = ClickRes.staleC)) :
    (cycle env).2 = none ∧ run (env :: rest) = (cycle env).1 ++ run rest := by
  have hnone : (cycle env).2 = none := by
    rw [cycle, if_neg (by rw [hTop]; exact Bool.false_ne_true), hfound]
    show (solvePhase env els).2 = none
    simp only [solvePhase, hsolve]
    cases hch : choose_option els a with
    | failed => exact absurd hch hchoose
    | clicked l h sub =>
      show (clickPhase env).2 = none
      rcases hstale with hw | ⟨hw, hc⟩
      · rw [clickPhase, hw]
      · rw [clickPhase, hw, hc]
  refine ⟨hnone, ?_⟩
  rw [run, hnone]

/-- Witness for C7: a standard-mode cycle that scrapes option A, solves
to A, and then sees the option element go stale while waiting for it to
become clickable: the cycle loops instead of terminating. -/
theorem C7_stale_restarts_witness :
    (cycle ⟨Mode.standard, false, [⟨false, false, ScrapeAttempt.success [(['A'], 1)]⟩],
      some ['A'], WaitClickRes.staleW, ClickRes.okC,
      StdFindRes.foundBtn NEXT_BUTTON_TEXT, true, false, true, true⟩).2 = none ∧
    run [⟨Mode.standard, false, [⟨false, false, ScrapeAttempt.success [(['A'], 1)]⟩],
      some ['A'], WaitClickRes.staleW, ClickRes.okC,
      StdFindRes.foundBtn NEXT_BUTTON_TEXT, true, false, true, true⟩]
      = (cycle ⟨Mode.standard, false, [⟨false, false, ScrapeAttempt.success [(['A'], 1)]⟩],
        some ['A'], WaitClickRes.staleW, ClickRes.okC,
        StdFindRes.foundBtn NEXT_BUTTON_TEXT, true, false, true, true⟩).1 ++ run [] :=
  C7_stale_restarts _ [(['A'], 1)] [] rfl (by decide) ['A'] rfl (by decide) (Or.inl rfl)

end AcadHack
